import Mathlib

/-!
Verification of the request-classification and response-rewriting core of the
shoptet-css-proxy repository.

The definitions below are a shallow embedding of `src/lib/css-proxy-server.js`
(whose CSS middleware, mapping builder, proxy dispatch and HTML rewriter are
near-identical duplicates of the ones in `src/proxy-server.js`).  JavaScript
strings are modelled as `List Char`; the JS `Map` holding the CSS mappings is
modelled as an insertion-ordered association list (JS `Map` iterates in
insertion order, and `Map.set` on an existing key updates the value in place
keeping the original position).  Filesystem queries (`existsSync`) are
modelled as a boolean oracle `E : Str → Bool`, and the Node
`path.resolve(baseDir, sourceFolder, rel)` used by the direct tier as an
abstract function `D : Str → Str`; both are I/O primitives external to the
own logic of the repository.
-/

namespace ShoptetCssProxy

/-- JavaScript strings, modelled as lists of characters. -/
abbrev Str := List Char

/-- JS `s.startsWith(pat)`. -/
def startsWith : Str → Str → Bool
  | _, [] => true
  | [], _ :: _ => false
  | c :: cs, p :: ps => (c == p) && startsWith cs ps

/-- JS `s.includes(pat)`: `pat` occurs as a contiguous substring of `s`. -/
def includes : Str → Str → Bool
  | [], pat => startsWith [] pat
  | c :: t, pat => startsWith (c :: t) pat || includes t pat

/-- JS `s.endsWith(pat)`. -/
def endsWith (s pat : Str) : Bool := startsWith s.reverse pat.reverse

/-- JS `s.replace(pat, repl)` with a string pattern: replaces only the FIRST
occurrence of `pat` in `s` (this is the JavaScript semantics of
`String.prototype.replace` when the pattern is a plain string). -/
def replaceFirst : Str → Str → Str → Str
  | [], pat, repl => if startsWith [] pat then repl else []
  | c :: t, pat, repl =>
    if startsWith (c :: t) pat then repl ++ (c :: t).drop pat.length
    else c :: replaceFirst t pat repl

/-- `req.path.split(NNN)[0]`: the middleware strips everything from the first
question mark (css-proxy-server.js line 106). -/
def stripQuery (s : Str) : Str := s.takeWhile (fun c => !(c == '?'))

/-- JS `s.split(SLASH).pop()`: the final path segment, i.e. the suffix after
the last slash (css-proxy-server.js line 134). -/
def lastSegment (s : Str) : Str := (s.reverse.takeWhile (fun c => !(c == '/'))).reverse

/-- The stylesheet extension literal used throughout the middleware. -/
def cssExt : Str := ['.', 'c', 's', 's']

/-- JS `pattern.replace(RE-dot-css-end, EMPTY)`: strip a trailing `.css`
(css-proxy-server.js line 132). -/
def stripCss (s : Str) : Str := if endsWith s cssExt then s.take (s.length - 4) else s

/-- JS `urlPath.replace(RE-lead-slash, EMPTY)`: drop one leading slash
(css-proxy-server.js line 149). -/
def dropLeadSlash : Str → Str
  | '/' :: t => t
  | s => s

/-! ### The mapping store (JS `Map` as an insertion-ordered association list) -/

/-- JS `map.has(k)`. -/
def mapHas : List (Str × Str) → Str → Bool
  | [], _ => false
  | p :: t, k => p.1 == k || mapHas t k

/-- JS `map.get(k)` (first entry with the key; keys are unique in a JS Map). -/
def mapGet : List (Str × Str) → Str → Option Str
  | [], _ => none
  | p :: t, k => if p.1 == k then some p.2 else mapGet t k

/-- JS `map.set(k, v)`: update in place when the key exists (keeping its
insertion position), append otherwise. -/
def mapSet (m : List (Str × Str)) (k v : Str) : List (Str × Str) :=
  if mapHas m k then m.map (fun p => if p.1 == k then (k, v) else p) else m ++ [(k, v)]

/-! ### MatchResolver: the three match tiers (css-proxy-server.js lines 105-164) -/

/-- Exact tier (lines 112-127): the store contains the request path verbatim
and the mapped file exists on disk right now.  A missing file makes the tier
fall through (the code only logs). -/
def exactTier (store : List (Str × Str)) (E : Str → Bool) (u : Str) : Option Str :=
  match mapGet store u with
  | some f => if E f then some f else none
  | none => none

/-- The textual hit condition of the loop at line 134:
`urlPath.includes(patternBase) OR urlPath.endsWith(pattern.split(SLASH).pop())`. -/
def hitCond (u k : Str) : Bool := includes u (stripCss k) || endsWith u (lastSegment k)

/-- Second tier (lines 129-146): scan the store in insertion order; an entry
is served when its textual condition holds AND its file exists; an entry whose
file is missing is passed over and the loop continues. -/
def patternTier (E : Str → Bool) (u : Str) : List (Str × Str) → Option Str
  | [] => none
  | (k, f) :: rest =>
    if hitCond u k && E f then some f else patternTier E u rest

/-- Direct tier (lines 148-158): resolve the slash-stripped request path under
the source folder; serve it when it exists and ends in `.css`.  `D` stands for
`resolve(baseDir, sourceFolder, rel)`. -/
def directTier (E : Str → Bool) (D : Str → Str) (u : Str) : Option Str :=
  let d := D (dropLeadSlash u)
  if E d && endsWith d cssExt then some d else none

/-- Which tier produced the served file, or a miss. -/
inductive ResolveResult where
  | viaExact (f : Str)
  | viaPattern (f : Str)
  | viaDirect (f : Str)
  | miss
  deriving DecidableEq, Repr

/-- The three tiers in the strict order of the CSS middleware. -/
def resolveCss (store : List (Str × Str)) (E : Str → Bool) (D : Str → Str) (u : Str) :
    ResolveResult :=
  match exactTier store E u with
  | some f => .viaExact f
  | none =>
    match patternTier E u store with
    | some f => .viaPattern f
    | none =>
      match directTier E D u with
      | some f => .viaDirect f
      | none => .miss

/-! ### RequestDispatcher (css-proxy-server.js lines 105-164, 169-176, 276-294) -/

/-- What the middleware chain does with a request. -/
inductive Action where
  | localCss (f : Str)
  | statusJson
  | nextSkip
  | forward
  deriving DecidableEq, Repr

def proxyTestPath : Str := "/proxy-test".toList
def faviconPath : Str := "/favicon.ico".toList
def nextAssetPre : Str := "/_next/".toList
def getMethod : Str := "GET".toList

/-- The skip list of the final proxy middleware (line 278): the test endpoint, the
favicon and framework-internal assets are handed to `next()` instead of the
proxy. -/
def bypassPath (p : Str) : Bool :=
  p == proxyTestPath || p == faviconPath || startsWith p nextAssetPre

/-- The middleware stages after the CSS middleware: the GET route for
`/proxy-test` (line 169), then the proxy middleware with its skip list
(lines 276-287). -/
def afterCss (m p : Str) : Action :=
  if m == getMethod && p == proxyTestPath then .statusJson
  else if bypassPath p then .nextSkip
  else .forward

/-- The whole request dispatch: the CSS middleware intercepts only paths
ending in `.css` and serves the file found by the resolver on a hit; everything else
(and every resolver miss) falls to the later stages. -/
def dispatch (store : List (Str × Str)) (E : Str → Bool) (D : Str → Str) (m p : Str) :
    Action :=
  let u := stripQuery p
  if endsWith u cssExt then
    match resolveCss store E D u with
    | .viaExact f => .localCss f
    | .viaPattern f => .localCss f
    | .viaDirect f => .localCss f
    | .miss => afterCss m p
  else afterCss m p

/-! ### MappingBuilder (css-proxy-server.js lines 51-101) -/

/-- One attempt of the regex `sourceFolder/([^/]+)/` at the start of `s`:
`pre` is `sourceFolder/`; the capture is the nonempty run of non-slash
characters that must be followed by another slash. -/
def folderAt (pre s : Str) : Option Str :=
  if startsWith s pre then
    let rest := s.drop pre.length
    let seg := rest.takeWhile (fun c => !(c == '/'))
    if decide (0 < seg.length) && decide (seg.length < rest.length) then some seg else none
  else none

/-- `file.match(RegExp(sourceFolder + SLASH-SEG-SLASH))[1]` (line 72): scan
for the first position where the pattern matches and return the captured
folder name. -/
def matchFolder (pre : Str) : Str → Option Str
  | [] => folderAt pre []
  | c :: t =>
    match folderAt pre (c :: t) with
    | some g => some g
    | none => matchFolder pre t

/-- The fixed auto-detected production patterns for a folder name (lines
79-85), in source order. -/
def cssPatterns (g : Str) : List Str :=
  [ "/assets/css/".toList ++ g ++ cssExt,
    "/assets/css/styles.".toList ++ g ++ cssExt,
    "/css/".toList ++ g ++ cssExt,
    "/styles/".toList ++ g ++ cssExt,
    "/dist/styles.".toList ++ g ++ cssExt ]

/-- Phase one of the build (lines 56-67): insert each configured mapping whose
resolved local file exists; a missing file is logged and skipped.  `rp` stands
for `resolve(baseDir, localPath)`.  The store was cleared first (line 53), so
the fold starts from the empty store. -/
def explicitPhase (ex : List (Str × Str)) (rp : Str → Str) (E : Str → Bool) :
    List (Str × Str) :=
  ex.foldl (fun m pe => if E (rp pe.2) then mapSet m pe.1 (rp pe.2) else m) []

/-- The guarded insert of the auto-detection loop (lines 87-91): only add the
pattern when the key is absent. -/
def autoInsert (m : List (Str × Str)) (pat v : Str) : List (Str × Str) :=
  if mapHas m pat then m else mapSet m pat v

/-- Phase two of the build (lines 69-93): for each discovered stylesheet file,
extract its folder name and insert the conventional patterns without
overwriting. -/
def autoPhase (files : List Str) (sf : Str) (rp : Str → Str) (m0 : List (Str × Str)) :
    List (Str × Str) :=
  files.foldl (fun m file =>
    match matchFolder (sf ++ ['/']) file with
    | some g => (cssPatterns g).foldl (fun m2 pat => autoInsert m2 pat (rp file)) m
    | none => m) m0

/-- `buildCSSMapping` (lines 51-101): clear, insert explicit mappings, then
auto-detected patterns. -/
def buildCSSMapping (ex : List (Str × Str)) (files : List Str) (sf : Str)
    (rp : Str → Str) (E : Str → Bool) : List (Str × Str) :=
  autoPhase files sf rp (explicitPhase ex rp E)

/-- A watch-triggered rebuild (lines 360-365 together with lines 51-53): the
file enumeration (`findCSSFiles`, the only awaited step) runs BEFORE the store
is cleared, so a scan failure propagates to the catch handler of the watcher and
the previous store is left untouched. -/
def rebuildOnChange (prev : List (Str × Str)) (scan : Except Unit (List Str))
    (ex : List (Str × Str)) (sf : Str) (rp : Str → Str) (E : Str → Bool) :
    List (Str × Str) :=
  match scan with
  | .error _ => prev
  | .ok files => buildCSSMapping ex files sf rp E

/-! ### ResponseRewriter (css-proxy-server.js lines 206-272) -/

/-- The closing body marker searched for at line 254. -/
def bodyTag : Str := ['<', '/', 'b', 'o', 'd', 'y', '>']

/-- The closing document marker searched for at line 256. -/
def htmlTag : Str := ['<', '/', 'h', 't', 'm', 'l', '>']

/-- The fixed client-side reload script (lines 228-252), transcribed verbatim
from the template literal; braces and apostrophes are written with hex
escapes. -/
def cssReloadScript : Str := String.toList (
  "\n<script>\n(function() \x7b\n" ++
  "  const cssFiles = document.querySelectorAll(\x27link[rel=\"stylesheet\"]\x27);\n" ++
  "  let lastModified = \x7b\x7d;\n" ++
  "  function checkCSS() \x7b\n" ++
  "    cssFiles.forEach(link => \x7b\n" ++
  "      const href = link.href.split(\x27?\x27)[0];\n" ++
  "      fetch(href + \x27?t=\x27 + Date.now(), \x7bcache: \x27no-store\x27\x7d)\n" ++
  "        .then(r => r.text())\n" ++
  "        .then(css => \x7b\n" ++
  "          const hash = btoa(css).substring(0, 10);\n" ++
  "          if (lastModified[href] && lastModified[href] !== hash) \x7b\n" ++
  "            link.href = href + \x27?v=\x27 + Date.now();\n" ++
  "            console.log(\x27CSS updated:\x27, href);\n" ++
  "          \x7d\n" ++
  "          lastModified[href] = hash;\n" ++
  "        \x7d)\n" ++
  "        .catch(() => \x7b\x7d);\n" ++
  "    \x7d);\n" ++
  "  \x7d\n" ++
  "  setInterval(checkCSS, 2000);\n" ++
  "  checkCSS();\n" ++
  "\x7d)();\n</script>")

/-- Lines 254-258: replace the first `</body>` (JS string replace), falling
back to the first `</html>`, otherwise leave the body alone. -/
def injectBody (body : Str) : Str :=
  if includes body bodyTag then replaceFirst body bodyTag (cssReloadScript ++ bodyTag)
  else if includes body htmlTag then replaceFirst body htmlTag (cssReloadScript ++ htmlTag)
  else body

/-- UTF-8 size of one character, as counted by `Buffer.byteLength` /
`Buffer.from` with the default utf-8 encoding. -/
def charBytes (c : Char) : Nat :=
  if c.val < 0x80 then 1 else if c.val < 0x800 then 2 else if c.val < 0x10000 then 3 else 4

/-- `Buffer.byteLength(s)` (line 261). -/
def utf8Len (s : Str) : Nat := (s.map charBytes).sum

/-- The buffered body at the time `res.end` runs: the concatenation of every
`res.write` chunk plus the optional final chunk passed to `end` (lines
219-225). -/
def accBody (chunks : List Str) (endChunk : Option Str) : Str :=
  chunks.foldl (fun a c => a ++ c) [] ++ endChunk.getD []

/-- Where an exception can be raised inside the `try` block of the `res.end`
override.  `strManip` is a throw while evaluating the marker search or the
`replace` call itself, i.e. before the reassignment `body = body.replace(...)`
has happened; `headerSet` is a throw in the header rewrite (the
`res.setHeader` call at line 261, which throws once headers were flushed),
i.e. after `body` has already been reassigned to the injected text. -/
inductive RewriteFail where
  | strManip
  | headerSet
  deriving DecidableEq, Repr

/-- What the response override emits downstream. -/
structure EndOut where
  emitted : Str
  contentLength : Option Nat
  deriving DecidableEq, Repr

/-- The `res.end` override (lines 224-270).  On the success path the injected
body is written and the content-length header is set to its byte length; on
an exception the catch block (lines 264-269) writes whatever the local
variable `body` currently holds, without setting the header. -/
def resEndOverride (chunks : List Str) (endChunk : Option Str)
    (fail : Option RewriteFail) : EndOut :=
  let body := accBody chunks endChunk
  match fail with
  | some .strManip => { emitted := body, contentLength := none }
  | some .headerSet => { emitted := injectBody body, contentLength := none }
  | none => { emitted := injectBody body, contentLength := some (utf8Len (injectBody body)) }

/-! ### Spec-side comparison definitions

These two definitions follow the words of the SPEC/claims rather than the
source; they exist only to be compared against the source-derived definitions
above. -/

/-- The hit condition as the claim words it: substring containment of the
stripped key, or EQUALITY of the final path segments (the source instead
tests a plain string suffix). -/
def claimHit (u k : Str) : Bool :=
  includes u (stripCss k) || (lastSegment u == lastSegment k)

/-- Injection before the LAST occurrence of the marker, as the claim words
it: replacing the last occurrence of `pat` in `s` is replacing the first
occurrence in the reversal. -/
def claimInjectLast (body : Str) : Str :=
  if includes body bodyTag then
    (replaceFirst body.reverse bodyTag.reverse (bodyTag.reverse ++ cssReloadScript.reverse)).reverse
  else if includes body htmlTag then
    (replaceFirst body.reverse htmlTag.reverse (htmlTag.reverse ++ cssReloadScript.reverse)).reverse
  else body

/-! ### Helper lemmas about the string primitives -/

theorem startsWith_iff (s pat : Str) : startsWith s pat = true ↔ ∃ t, s = pat ++ t := by
  induction s generalizing pat with
  | nil =>
    cases pat with
    | nil => simp [startsWith]
    | cons p ps => simp [startsWith]
  | cons c cs ih =>
    cases pat with
    | nil => simp [startsWith]
    | cons p ps =>
      simp only [startsWith, Bool.and_eq_true, beq_iff_eq, ih, List.cons_append,
        List.cons.injEq]
      constructor
      · rintro ⟨hc, t, ht⟩
        exact ⟨t, hc, ht⟩
      · rintro ⟨t, hcp, ht⟩
        exact ⟨hcp, t, ht⟩

theorem includes_iff (s pat : Str) : includes s pat = true ↔ ∃ pre post, s = pre ++ pat ++ post := by
  induction s with
  | nil =>
    rw [includes, startsWith_iff]
    constructor
    · rintro ⟨t, ht⟩
      exact ⟨[], t, by simpa using ht⟩
    · rintro ⟨pre, post, h⟩
      have h' := h.symm
      simp only [List.append_assoc, List.append_eq_nil] at h'
      exact ⟨[], by simp [h'.2.1]⟩
  | cons c t ih =>
    rw [includes]
    simp only [Bool.or_eq_true, startsWith_iff, ih]
    constructor
    · rintro (⟨u, hu⟩ | ⟨pre, post, h⟩)
      · exact ⟨[], u, by simpa using hu⟩
      · exact ⟨c :: pre, post, by simp [h]⟩
    · rintro ⟨pre, post, h⟩
      cases pre with
      | nil => exact Or.inl ⟨post, by simpa using h⟩
      | cons a as =>
        simp only [List.cons_append, List.cons.injEq] at h
        exact Or.inr ⟨as, post, h.2⟩

theorem replaceFirst_spec (s pat repl : Str) (h : includes s pat = true) :
    ∃ pre post, s = pre ++ pat ++ post ∧
      (∀ p2 s2, s = p2 ++ pat ++ s2 → pre.length ≤ p2.length) ∧
      replaceFirst s pat repl = pre ++ repl ++ post := by
  induction s with
  | nil =>
    rw [includes] at h
    obtain ⟨u, hu⟩ := (startsWith_iff [] pat).1 h
    have h' := hu.symm
    simp only [List.append_eq_nil] at h'
    refine ⟨[], [], by simp [h'.1], fun p2 s2 _ => Nat.zero_le _, ?_⟩
    rw [replaceFirst, if_pos h]
    simp
  | cons c t ih =>
    by_cases hsw : startsWith (c :: t) pat = true
    · obtain ⟨u, hu⟩ := (startsWith_iff _ _).1 hsw
      refine ⟨[], u, by simpa using hu, fun p2 s2 _ => Nat.zero_le _, ?_⟩
      rw [replaceFirst, if_pos hsw, hu, List.drop_left]
      simp
    · have hinc : includes t pat = true := by
        rw [includes] at h
        simpa [hsw] using h
      obtain ⟨pre, post, hdec, hmin, heq⟩ := ih hinc
      refine ⟨c :: pre, post, by simp [hdec], ?_, ?_⟩
      · intro p2 s2 h2
        cases p2 with
        | nil =>
          exact absurd ((startsWith_iff _ _).2 ⟨s2, by simpa using h2⟩) hsw
        | cons a as =>
          simp only [List.cons_append, List.cons.injEq] at h2
          simpa using Nat.succ_le_succ (hmin as s2 h2.2)
      · rw [replaceFirst, if_neg hsw, heq]
        simp

theorem utf8Len_append (a b : Str) : utf8Len (a ++ b) = utf8Len a + utf8Len b := by
  simp [utf8Len]

theorem utf8Len_injectBody_ge (body : Str) : utf8Len body ≤ utf8Len (injectBody body) := by
  unfold injectBody
  by_cases h1 : includes body bodyTag = true
  · obtain ⟨pre, post, hdec, _, heq⟩ :=
      replaceFirst_spec body bodyTag (cssReloadScript ++ bodyTag) h1
    rw [if_pos h1, heq, hdec]
    simp only [utf8Len_append]
    omega
  · rw [if_neg h1]
    by_cases h2 : includes body htmlTag = true
    · obtain ⟨pre, post, hdec, _, heq⟩ :=
        replaceFirst_spec body htmlTag (cssReloadScript ++ htmlTag) h2
      rw [if_pos h2, heq, hdec]
      simp only [utf8Len_append]
      omega
    · rw [if_neg h2]

/-! ### Helper lemmas about the mapping store -/

theorem mapGet_some_has (m : List (Str × Str)) (k v : Str) (h : mapGet m k = some v) :
    mapHas m k = true := by
  induction m with
  | nil => simp [mapGet] at h
  | cons p t ih =>
    rw [mapGet] at h
    rw [mapHas]
    cases hp : p.1 == k with
    | true => simp
    | false =>
      rw [hp] at h
      simp only [Bool.false_eq_true, if_false] at h
      simp [ih h]

theorem mapHas_append_left (m l : List (Str × Str)) (k : Str) (h : mapHas m k = true) :
    mapHas (m ++ l) k = true := by
  induction m with
  | nil => simp [mapHas] at h
  | cons p t ih =>
    simp only [List.cons_append, mapHas, Bool.or_eq_true] at h ⊢
    rcases h with h | h
    · exact Or.inl h
    · exact Or.inr (ih h)

theorem mapGet_append_single_self (m : List (Str × Str)) (k v : Str)
    (h : mapHas m k = false) : mapGet (m ++ [(k, v)]) k = some v := by
  induction m with
  | nil => simp [mapGet]
  | cons p t ih =>
    rw [mapHas] at h
    cases hp : p.1 == k with
    | true => rw [hp] at h; simp at h
    | false =>
      rw [hp] at h
      simp only [Bool.false_or] at h
      simp [mapGet, hp, ih h]

theorem mapGet_append_single_ne (m : List (Str × Str)) (a v k : Str)
    (h : (a == k) = false) : mapGet (m ++ [(a, v)]) k = mapGet m k := by
  induction m with
  | nil => simp [mapGet, h]
  | cons p t ih =>
    cases hp : p.1 == k with
    | true => simp [mapGet, hp]
    | false => simp [mapGet, hp, ih]

theorem mapGet_mapReplace_self (m : List (Str × Str)) (k v : Str) (h : mapHas m k = true) :
    mapGet (m.map (fun p => if p.1 == k then (k, v) else p)) k = some v := by
  induction m with
  | nil => simp [mapHas] at h
  | cons p t ih =>
    rw [mapHas] at h
    by_cases hp : p.1 = k
    · simp [mapGet, hp]
    · have hB : (p.1 == k) = false := by simpa using hp
      have hT : mapHas t k = true := by simpa [hB] using h
      simpa [mapGet, List.map_cons, hp, hB] using ih hT

theorem mapGet_mapReplace_ne (m : List (Str × Str)) (a v k : Str) (h : (a == k) = false) :
    mapGet (m.map (fun p => if p.1 == a then (a, v) else p)) k = mapGet m k := by
  induction m with
  | nil => simp [mapGet]
  | cons p t ih =>
    have han : ¬ (a = k) := by simpa using h
    have hka : ¬ (k = a) := fun hh => han hh.symm
    by_cases hp : p.1 = a
    · have hpk : ¬ (p.1 = k) := by rw [hp]; exact han
      simpa [mapGet, List.map_cons, hp, hpk, han] using ih
    · by_cases hpk : p.1 = k
      · simp [mapGet, List.map_cons, hp, hpk, hka]
      · simpa [mapGet, List.map_cons, hp, hpk] using ih

theorem mapGet_set_self (m : List (Str × Str)) (k v : Str) :
    mapGet (mapSet m k v) k = some v := by
  unfold mapSet
  by_cases h : mapHas m k = true
  · rw [if_pos h]
    exact mapGet_mapReplace_self m k v h
  · rw [if_neg h]
    exact mapGet_append_single_self m k v (by simpa using h)

theorem mapGet_set_ne (m : List (Str × Str)) (a v k : Str) (h : (a == k) = false) :
    mapGet (mapSet m a v) k = mapGet m k := by
  unfold mapSet
  by_cases hm : mapHas m a = true
  · rw [if_pos hm]
    exact mapGet_mapReplace_ne m a v k h
  · rw [if_neg hm]
    exact mapGet_append_single_ne m a v k h

theorem foldl_keep {α : Type} (step : List (Str × Str) → α → List (Str × Str)) (k : Str)
    (hstep : ∀ m a, mapHas m k = true →
      mapGet (step m a) k = mapGet m k ∧ mapHas (step m a) k = true) :
    ∀ (l : List α) (m : List (Str × Str)), mapHas m k = true →
      mapGet (l.foldl step m) k = mapGet m k ∧ mapHas (l.foldl step m) k = true := by
  intro l
  induction l with
  | nil => exact fun m hm => ⟨rfl, hm⟩
  | cons a t ih =>
    intro m hm
    have h1 := hstep m a hm
    have h2 := ih (step m a) h1.2
    exact ⟨h2.1.trans h1.1, h2.2⟩

theorem autoInsert_keep (m : List (Str × Str)) (pat v k : Str) (h : mapHas m k = true) :
    mapGet (autoInsert m pat v) k = mapGet m k ∧ mapHas (autoInsert m pat v) k = true := by
  unfold autoInsert
  cases hp : mapHas m pat with
  | true => simp [h]
  | false =>
    have hpk : (pat == k) = false := by
      cases hq : pat == k with
      | false => rfl
      | true =>
        have : pat = k := beq_iff_eq.1 hq
        rw [this] at hp
        rw [hp] at h
        exact absurd h (by simp)
    have hset : mapSet m pat v = m ++ [(pat, v)] := by
      unfold mapSet
      simp [hp]
    simp only [Bool.false_eq_true, if_false, hset]
    exact ⟨mapGet_append_single_ne m pat v k hpk, mapHas_append_left m _ k h⟩

theorem autoPhase_keep (files : List Str) (sf : Str) (rp : Str → Str)
    (m0 : List (Str × Str)) (k : Str) (h : mapHas m0 k = true) :
    mapGet (autoPhase files sf rp m0) k = mapGet m0 k := by
  unfold autoPhase
  refine (foldl_keep _ k ?_ files m0 h).1
  intro m file hm
  cases hf : matchFolder (sf ++ ['/']) file with
  | none => simp [hf, hm]
  | some g =>
    simp only [hf]
    exact foldl_keep (fun m2 pat => autoInsert m2 pat (rp file)) k
      (fun m2 pat hm2 => autoInsert_keep m2 pat (rp file) k hm2) (cssPatterns g) m hm

theorem explicitFold_get (rp : Str → Str) (E : Str → Bool) (k lp : Str)
    (hE : E (rp lp) = true) :
    ∀ (l acc : List (Str × Str)),
      (∀ lp2, (k, lp2) ∈ l → lp2 = lp) →
      ((k, lp) ∈ l ∨ mapGet acc k = some (rp lp)) →
      mapGet (l.foldl (fun m pe => if E (rp pe.2) then mapSet m pe.1 (rp pe.2) else m) acc) k
        = some (rp lp) := by
  intro l
  induction l with
  | nil =>
    intro acc _ hd
    rcases hd with h | h
    · simp at h
    · simpa using h
  | cons pe t ih =>
    intro acc huniq hd
    obtain ⟨k1, l1⟩ := pe
    rw [List.foldl_cons]
    apply ih
    · exact fun lp2 h2 => huniq lp2 (List.mem_cons_of_mem _ h2)
    · rcases hd with hmem | hacc
      · rcases List.mem_cons.1 hmem with heq | hmem'
        · right
          have hk1 : k1 = k := (congrArg Prod.fst heq).symm
          have hl1 : l1 = lp := (congrArg Prod.snd heq).symm
          subst hk1 hl1
          simp [hE, mapGet_set_self]
        · exact Or.inl hmem'
      · right
        by_cases hk : (k1 == k) = true
        · have hpk : k1 = k := beq_iff_eq.1 hk
          have hlp2 : l1 = lp := huniq l1 (by rw [← hpk]; exact List.mem_cons_self _ _)
          subst hpk hlp2
          simp [hE, mapGet_set_self]
        · have hk' : (k1 == k) = false := by
            cases hq : k1 == k with
            | false => rfl
            | true => exact absurd hq hk
          cases hEe : E (rp l1) with
          | true => simpa [hEe, mapGet_set_ne acc k1 (rp l1) k hk'] using hacc
          | false => simpa [hEe] using hacc

theorem explicitPhase_get (ex : List (Str × Str)) (rp : Str → Str) (E : Str → Bool)
    (k lp : Str) (hmem : (k, lp) ∈ ex) (huniq : ∀ lp2, (k, lp2) ∈ ex → lp2 = lp)
    (hE : E (rp lp) = true) :
    mapGet (explicitPhase ex rp E) k = some (rp lp) :=
  explicitFold_get rp E k lp hE ex [] huniq (Or.inl hmem)

theorem patternTier_eq_find (E : Str → Bool) (u : Str) (l : List (Str × Str)) :
    patternTier E u l = (l.find? (fun q => hitCond u q.1 && E q.2)).map (fun q => q.2) := by
  induction l with
  | nil => rfl
  | cons p t ih =>
    obtain ⟨k, f⟩ := p
    have hpt : patternTier E u ((k, f) :: t)
        = if hitCond u k && E f then some f else patternTier E u t := rfl
    cases hc : hitCond u k && E f with
    | true =>
      have hpos : ((fun q : Str × Str => hitCond u q.1 && E q.2) (k, f)) = true := hc
      rw [hpt, if_pos hc, List.find?_cons_of_pos t hpos]
      rfl
    | false =>
      have hneg : ¬ (((fun q : Str × Str => hitCond u q.1 && E q.2) (k, f)) = true) := by
        simp only []
        rw [hc]
        simp
      rw [hpt, if_neg (by simpa using hneg), List.find?_cons_of_neg t hneg, ih]

/-! ### Claim C1: exact tier priority -/

/-- C1: for every request path ending in `.css` that is a key of the mapping
store and whose mapped local file exists on disk at lookup time, resolution
returns that mapped file via the exact tier, which takes priority over any
pattern-tier or direct-tier match, and the dispatcher serves that file. -/
theorem c1_exact_tier_priority (store : List (Str × Str)) (E : Str → Bool) (D : Str → Str)
    (m p u f : Str) (hq : stripQuery p = u) (hcss : endsWith u cssExt = true)
    (hget : mapGet store u = some f) (hE : E f = true) :
    resolveCss store E D u = ResolveResult.viaExact f ∧
    dispatch store E D m p = Action.localCss f := by
  have hex : exactTier store E u = some f := by
    unfold exactTier
    rw [hget]
    simp [hE]
  have h1 : resolveCss store E D u = ResolveResult.viaExact f := by
    unfold resolveCss
    rw [hex]
  refine ⟨h1, ?_⟩
  simp only [dispatch]
  rw [hq, if_pos hcss, h1]

def c1Key : Str := "/assets/css/header.css".toList
def c1File : Str := "/abs/src/header/style.css".toList
def c1Store : List (Str × Str) := [(c1Key, c1File)]
def c1E : Str → Bool := fun s => s == c1File
def c1D : Str → Str := fun _ => []

/-- Witness for C1 at a concrete store, path and filesystem. -/
theorem c1_exact_tier_priority_witness :
    resolveCss c1Store c1E c1D c1Key = ResolveResult.viaExact c1File ∧
    dispatch c1Store c1E c1D getMethod c1Key = Action.localCss c1File :=
  c1_exact_tier_priority c1Store c1E c1D getMethod c1Key c1Key c1File
    (by decide) (by decide) (by decide) (by decide)

/-! ### Claim C4: non-.css paths bypass the resolver -/

/-- C4 counterexample: `/proxy-test` does not end in `.css`, yet it is NOT
forwarded to the upstream origin; the status route answers it directly, so
the "always forwards" part of the claim fails. -/
theorem c4_counterexample :
    endsWith (stripQuery proxyTestPath) cssExt = false ∧
    dispatch [] (fun _ => false) (fun _ => []) getMethod proxyTestPath = Action.statusJson ∧
    Action.statusJson ≠ Action.forward := by decide

/-- C4 (amended): for every request whose path does not end in the stylesheet
extension, the dispatcher never consults the resolver (its result does not
depend on the store, the filesystem oracle or the path resolver), and it
forwards the request unless the path is one of the fixed bypass paths
(`/proxy-test`, `/favicon.ico`, a `/_next/` prefix). -/
theorem c4_non_css_forwarding (store store2 : List (Str × Str)) (E E2 : Str → Bool)
    (D D2 : Str → Str) (m p : Str) (h : endsWith (stripQuery p) cssExt = false) :
    dispatch store E D m p = dispatch store2 E2 D2 m p ∧
    (bypassPath p = false → dispatch store E D m p = Action.forward) := by
  have hne : ¬ (endsWith (stripQuery p) cssExt = true) := by simp [h]
  constructor
  · simp only [dispatch]
    rw [if_neg hne, if_neg hne]
  · intro hb
    have hb' := hb
    simp only [bypassPath, Bool.or_eq_false_iff] at hb'
    simp only [dispatch]
    rw [if_neg hne]
    simp [afterCss, hb'.1, hb]

def c4Page : Str := "/some/page.html".toList
def c4Store2 : List (Str × Str) := [("/x.css".toList, "/y.css".toList)]

/-- Witness for C4 at a concrete non-stylesheet path. -/
theorem c4_non_css_forwarding_witness :
    dispatch [] (fun _ => false) (fun _ => []) getMethod c4Page
      = dispatch c4Store2 (fun _ => true) (fun _ => c4Page) getMethod c4Page ∧
    dispatch [] (fun _ => false) (fun _ => []) getMethod c4Page = Action.forward := by
  have h := c4_non_css_forwarding [] c4Store2 (fun _ => false) (fun _ => true)
    (fun _ => []) (fun _ => c4Page) getMethod c4Page (by decide)
  exact ⟨h.1, h.2 (by decide)⟩

/-! ### Claim C8: a failed scan retains the previous store -/

/-- C8: a watch-triggered rebuild whose source-tree enumeration fails leaves
the previously published mapping table unchanged; otherwise it installs the
complete freshly built table. -/
theorem c8_build_failure_retains (prev : List (Str × Str)) (scan : Except Unit (List Str))
    (ex : List (Str × Str)) (sf : Str) (rp : Str → Str) (E : Str → Bool) :
    (∀ e, scan = Except.error e → rebuildOnChange prev scan ex sf rp E = prev) ∧
    (∀ files, scan = Except.ok files →
      rebuildOnChange prev scan ex sf rp E = buildCSSMapping ex files sf rp E) := by
  constructor
  · intro e h
    rw [h]
    rfl
  · intro files h
    rw [h]
    rfl

def c8Prev : List (Str × Str) := [("/css/old.css".toList, "/abs/old.css".toList)]

/-- Witness for C8 at a concrete failing scan. -/
theorem c8_build_failure_retains_witness :
    rebuildOnChange c8Prev (Except.error ()) [] [] (fun s => s) (fun _ => true) = c8Prev :=
  (c8_build_failure_retains c8Prev (Except.error ()) [] [] (fun s => s) (fun _ => true)).1 () rfl

/-! ### Claim C2: the second (pattern) tier -/

def c2KeyH : Str := "/css/header.css".toList
def c2FileH : Str := "/abs/header.css".toList
def c2UX : Str := "/xheader.css".toList
def c2KeyA : Str := "/css/a.css".toList
def c2FileMiss : Str := "/abs/missing.css".toList
def c2KeyB : Str := "/styles/a.css".toList
def c2FileB : Str := "/abs/b.css".toList
def c2UA : Str := "/css/a.css".toList

/-- C2 counterexample.  First input: the code hits an entry because the
request path merely ENDS WITH the final segment of the key (`/xheader.css` vs
`header.css`) even though the final segments differ and the stripped key is
not a substring, so the "final path segment equals" condition of the claim calls
this a non-hit.  Second input: the first entry satisfies the claimed hit
condition but its file is missing, and the code serves a LATER entry, against
the claimed "first matching entry wins" (which ignores the existence check). -/
theorem c2_counterexample :
    (resolveCss [(c2KeyH, c2FileH)] (fun _ => true) (fun _ => []) c2UX
        = ResolveResult.viaPattern c2FileH ∧
      claimHit c2UX c2KeyH = false) ∧
    (resolveCss [(c2KeyA, c2FileMiss), (c2KeyB, c2FileB)] (fun s => s == c2FileB)
        (fun _ => []) c2UA = ResolveResult.viaPattern c2FileB ∧
      claimHit c2UA c2KeyA = true) := by decide

/-- C2 (amended): for every request path ending in `.css` with no exact-tier
hit, the pattern tier scans the store in insertion order and serves the first
entry whose mapped file exists AND whose textual condition holds, the textual
condition being: the request path contains the `.css`-stripped key of the entry as
a substring, OR the request path ends (string suffix) with the final path
segment of the entry key; when no entry qualifies the direct tier decides. -/
theorem c2_pattern_tier_semantics (store : List (Str × Str)) (E : Str → Bool) (D : Str → Str)
    (u : Str) (_hcss : endsWith u cssExt = true) (hex : exactTier store E u = none) :
    resolveCss store E D u =
      (match store.find? (fun q => hitCond u q.1 && E q.2) with
       | some q => ResolveResult.viaPattern q.2
       | none =>
         match directTier E D u with
         | some f => ResolveResult.viaDirect f
         | none => ResolveResult.miss) := by
  unfold resolveCss
  rw [hex, patternTier_eq_find]
  cases hf : store.find? (fun q => hitCond u q.1 && E q.2) with
  | none => simp
  | some q => simp

/-- Witness for the amended C2 at a concrete store and path. -/
theorem c2_pattern_tier_semantics_witness :
    resolveCss [(c2KeyH, c2FileH)] (fun _ => true) (fun _ => []) c2UX
      = ResolveResult.viaPattern c2FileH := by
  have h := c2_pattern_tier_semantics [(c2KeyH, c2FileH)] (fun _ => true) (fun _ => [])
    c2UX (by decide) (by decide)
  rw [h]
  decide

/-! ### Claim C3: explicit mappings override auto-detected ones -/

def c3Key : Str := "/css/header.css".toList
def c3Miss : Str := "/missing.css".toList
def c3SrcFile : Str := "src/header/style.css".toList
def c3Sf : Str := "src".toList
def c3E : Str → Bool := fun s => s == c3SrcFile

/-- C3 counterexample: an explicit mapping whose local file does NOT exist at
build time is skipped (line 64), so the auto-detected pattern with the same
key wins, contradicting the unconditional claim. -/
theorem c3_counterexample :
    ((c3Key, c3Miss) ∈ [((c3Key : Str), c3Miss)]) ∧
    mapGet (buildCSSMapping [(c3Key, c3Miss)] [c3SrcFile] c3Sf (fun s => s) c3E) c3Key
      = some c3SrcFile ∧
    c3SrcFile ≠ c3Miss := by decide

/-- C3 (amended): whenever an explicit mapping WHOSE RESOLVED LOCAL FILE
EXISTS AT BUILD TIME shares its request-path key with any auto-detected
pattern, the built store maps that key to the resolved file of the explicit
mapping, regardless of the order in which stylesheet files were discovered. -/
theorem c3_explicit_precedence (ex : List (Str × Str)) (files : List Str) (sf : Str)
    (rp : Str → Str) (E : Str → Bool) (k lp : Str)
    (hmem : (k, lp) ∈ ex) (huniq : ∀ lp2, (k, lp2) ∈ ex → lp2 = lp)
    (hE : E (rp lp) = true) :
    mapGet (buildCSSMapping ex files sf rp E) k = some (rp lp) := by
  have h1 : mapGet (explicitPhase ex rp E) k = some (rp lp) :=
    explicitPhase_get ex rp E k lp hmem huniq hE
  have h2 : mapHas (explicitPhase ex rp E) k = true :=
    mapGet_some_has _ k (rp lp) h1
  unfold buildCSSMapping
  rw [autoPhase_keep files sf rp _ k h2, h1]

def c3Wlp : Str := "local/header.css".toList
def c3WE : Str → Bool := fun s => s == c3Wlp

/-- Witness for the amended C3: the discovered file `src/header/style.css`
auto-derives the same key `/css/header.css` as the explicit mapping, yet the
explicit target survives. -/
theorem c3_explicit_precedence_witness :
    mapGet (buildCSSMapping [(c3Key, c3Wlp)] [c3SrcFile] c3Sf (fun s => s) c3WE) c3Key
      = some c3Wlp := by
  have huniq : ∀ lp2, ((c3Key, lp2) ∈ [((c3Key : Str), c3Wlp)]) → lp2 = c3Wlp := by
    intro lp2 h2
    rw [List.mem_singleton] at h2
    exact congrArg Prod.snd h2
  have h := c3_explicit_precedence [(c3Key, c3Wlp)] [c3SrcFile] c3Sf (fun s => s) c3WE
    c3Key c3Wlp (by decide) huniq (by decide)
  exact h

/-! ### Claim C10: missing files never terminate resolution -/

def c10U : Str := "/css/a.css".toList
def c10Miss : Str := "/abs/missing.css".toList
def c10Store : List (Str × Str) := [(c10U, c10Miss)]
def c10E : Str → Bool := fun _ => false
def c10D : Str → Str := fun _ => "/resolved".toList
def c10Next : Str := "/_next/a.css".toList

/-- C10 counterexample: a `.css` path under the `/_next/` prefix misses every
tier but is NOT forwarded; the skip list of the proxy middleware (line 278) hands
it to `next()` instead, so the claimed "when every tier misses the request is
forwarded" fails. -/
theorem c10_counterexample :
    endsWith (stripQuery c10Next) cssExt = true ∧
    resolveCss [] c10E c10D c10Next = ResolveResult.miss ∧
    dispatch [] c10E c10D getMethod c10Next = Action.nextSkip ∧
    Action.nextSkip ≠ Action.forward := by decide

/-- C10 (amended): for every `.css` request path, a mapped file missing on
disk never terminates resolution: an exact-tier entry with a missing file
falls through to the pattern tier; a pattern-tier entry with a missing file
is skipped and iteration continues with later entries; the direct tier is
still tried once no entry qualifies; and when every tier misses the request
falls to the proxy stage, which forwards it unless the path is in the fixed
bypass set. -/
theorem c10_missing_file_fall_through (store : List (Str × Str)) (E : Str → Bool)
    (D : Str → Str) (u : Str) (hcss : endsWith u cssExt = true) :
    (∀ f, mapGet store u = some f → E f = false →
      resolveCss store E D u =
        (match patternTier E u store with
         | some f2 => ResolveResult.viaPattern f2
         | none =>
           match directTier E D u with
           | some f3 => ResolveResult.viaDirect f3
           | none => ResolveResult.miss)) ∧
    (∀ k1 f1 rest, E f1 = false →
      patternTier E u ((k1, f1) :: rest) = patternTier E u rest) ∧
    (exactTier store E u = none → patternTier E u store = none →
      resolveCss store E D u =
        (match directTier E D u with
         | some f3 => ResolveResult.viaDirect f3
         | none => ResolveResult.miss)) ∧
    (∀ m p, stripQuery p = u → resolveCss store E D u = ResolveResult.miss →
      bypassPath p = false → dispatch store E D m p = Action.forward) := by
  refine ⟨?_, ?_, ?_, ?_⟩
  · intro f hget hE
    have hex : exactTier store E u = none := by
      unfold exactTier
      rw [hget]
      simp [hE]
    unfold resolveCss
    rw [hex]
  · intro k1 f1 rest hE
    show (if hitCond u k1 && E f1 then some f1 else patternTier E u rest)
      = patternTier E u rest
    rw [hE]
    simp
  · intro hex hp
    unfold resolveCss
    rw [hex, hp]
  · intro m p hq hmiss hb
    have hb' := hb
    simp only [bypassPath, Bool.or_eq_false_iff] at hb'
    simp only [dispatch]
    rw [hq, if_pos hcss, hmiss]
    simp [afterCss, hb'.1, hb]

/-- Witness for the amended C10: one store whose sole (textually matching)
entry points at a missing file, so every tier misses and the request is
forwarded. -/
theorem c10_missing_file_fall_through_witness :
    resolveCss c10Store c10E c10D c10U = ResolveResult.miss ∧
    patternTier c10E c10U c10Store = none ∧
    dispatch c10Store c10E c10D getMethod c10U = Action.forward := by
  have h := c10_missing_file_fall_through c10Store c10E c10D c10U (by decide)
  have h1 := h.1 c10Miss (by decide) (by decide)
  have h2 := h.2.1 c10U c10Miss [] (by decide)
  have h3 := h.2.2.1 (by decide) (by decide)
  have h4 := h.2.2.2 getMethod c10U (by decide) (by decide) (by decide)
  refine ⟨?_, ?_, h4⟩
  · rw [h1]
    decide
  · show patternTier c10E c10U ((c10U, c10Miss) :: []) = none
    rw [h2]
    rfl

/-! ### Claim C5: where the reload script is inserted -/

def c5Body2 : Str := "A</body>B</body>".toList

set_option maxRecDepth 8000 in
/-- C5 counterexample: on a body with two closing body markers, the code
inserts the script before the FIRST occurrence (JS string `replace` replaces
the first match), not before the last occurrence the claim requires. -/
theorem c5_counterexample : injectBody c5Body2 ≠ claimInjectLast c5Body2 := by
  intro h
  exact absurd (congrArg (fun l => List.take 2 l) h) (by decide)

/-- C5 (amended): the rewriter inserts the reload script immediately before
the FIRST occurrence of the closing body marker; with no body marker, before
the FIRST occurrence of the closing document marker; with neither marker, the
body is emitted unmodified; and a marker hit is one single insertion into the
original body, so the script is inserted exactly once. -/
theorem c5_inject_before_first_marker (body : Str) :
    (includes body bodyTag = true →
      ∃ pre post, body = pre ++ bodyTag ++ post ∧
        (∀ p2 s2, body = p2 ++ bodyTag ++ s2 → pre.length ≤ p2.length) ∧
        injectBody body = pre ++ cssReloadScript ++ bodyTag ++ post) ∧
    (includes body bodyTag = false → includes body htmlTag = true →
      ∃ pre post, body = pre ++ htmlTag ++ post ∧
        (∀ p2 s2, body = p2 ++ htmlTag ++ s2 → pre.length ≤ p2.length) ∧
        injectBody body = pre ++ cssReloadScript ++ htmlTag ++ post) ∧
    (includes body bodyTag = false → includes body htmlTag = false →
      injectBody body = body) := by
  refine ⟨?_, ?_, ?_⟩
  · intro h1
    obtain ⟨pre, post, hdec, hmin, heq⟩ :=
      replaceFirst_spec body bodyTag (cssReloadScript ++ bodyTag) h1
    refine ⟨pre, post, hdec, hmin, ?_⟩
    unfold injectBody
    rw [if_pos h1, heq]
    simp [List.append_assoc]
  · intro h1 h2
    obtain ⟨pre, post, hdec, hmin, heq⟩ :=
      replaceFirst_spec body htmlTag (cssReloadScript ++ htmlTag) h2
    refine ⟨pre, post, hdec, hmin, ?_⟩
    unfold injectBody
    rw [if_neg (by simp [h1]), if_pos h2, heq]
    simp [List.append_assoc]
  · intro h1 h2
    unfold injectBody
    rw [if_neg (by simp [h1]), if_neg (by simp [h2])]

def c5BodyW : Str := bodyTag ++ ['Y']
def c5Plain : Str := "<p>no markers</p>".toList

/-- Witness for the amended C5 at two concrete bodies: one whose first marker
occurrence is at the start, and one with no marker at all. -/
theorem c5_inject_before_first_marker_witness :
    injectBody c5BodyW = cssReloadScript ++ bodyTag ++ ['Y'] ∧
    injectBody c5Plain = c5Plain := by
  constructor
  · obtain ⟨pre, post, hdec, hmin, heq⟩ :=
      (c5_inject_before_first_marker c5BodyW).1 (by decide)
    have hpre : pre = [] := by
      have hlen := hmin [] ['Y'] (by simp [c5BodyW])
      exact List.length_eq_zero.1 (Nat.le_zero.1 hlen)
    subst hpre
    have h0 : bodyTag ++ (['Y'] : Str) = bodyTag ++ post := by
      simpa [c5BodyW] using hdec
    have hpost : post = ['Y'] := (List.append_cancel_left h0).symm
    subst hpost
    simpa using heq
  · exact (c5_inject_before_first_marker c5Plain).2.2 (by decide) (by decide)

/-! ### Claim C6: content-length matches the emitted body -/

/-- C6: on the success path of the rewriter, the emitted content-length header
equals the byte length of the body actually emitted, which is the
post-injection body. -/
theorem c6_content_length_matches (chunks : List Str) (endChunk : Option Str) :
    (resEndOverride chunks endChunk none).contentLength
        = some (utf8Len ((resEndOverride chunks endChunk none).emitted)) ∧
    (resEndOverride chunks endChunk none).emitted = injectBody (accBody chunks endChunk) := by
  exact ⟨rfl, rfl⟩

/-! ### Claim C7: behavior when the injection throws -/

def c7Body : Str := "<p></body>".toList

/-- C7 counterexample: when the header rewrite throws (the reassignment
`body = body.replace(...)` has already run), the catch block emits the
ALREADY INJECTED body, not the original unmodified buffered body the claim
promises. -/
theorem c7_counterexample :
    (resEndOverride [c7Body] none (some RewriteFail.headerSet)).emitted
      ≠ accBody [c7Body] none := by
  intro h
  exact absurd (congrArg (fun l => List.take 4 l) h) (by decide)

/-- C7 (amended): on any failure inside the try block the override still
emits a complete body — the original buffered body when the failure precedes
the injection reassignment, the injected body when it follows it — and the
emitted body is never shorter (in bytes) than the original, so the response
is never empty or truncated. -/
theorem c7_failure_emits_complete_body (chunks : List Str) (endChunk : Option Str)
    (f : RewriteFail) :
    ((resEndOverride chunks endChunk (some f)).emitted = accBody chunks endChunk ∨
      (resEndOverride chunks endChunk (some f)).emitted
        = injectBody (accBody chunks endChunk)) ∧
    utf8Len (accBody chunks endChunk)
      ≤ utf8Len ((resEndOverride chunks endChunk (some f)).emitted) := by
  cases f with
  | strManip => exact ⟨Or.inl rfl, Nat.le_refl _⟩
  | headerSet => exact ⟨Or.inr rfl, utf8Len_injectBody_ge _⟩

end ShoptetCssProxy
